import Mathlib

/-!
Verification of the APOD gallery viewer (`src/js/script.js`).

The development shallowly embeds the pure core of the script:

* `escapeHtml` / `escapeAttr` — HTML text/attribute escaping (lines 319-333);
* the date helpers `parseAnyDate`, `formatDateYMD`, `addDays` defined inside the
  click handler (lines 72-101), together with a model of the ECMAScript
  `Date.UTC` constructor (`dateUTC`).  A JavaScript `Date` produced by this
  program is always a UTC-midnight calendar day, so it is modelled as the
  civil triple `JDate` (year, 1-based month, day-of-month); `getTime()`
  comparisons between such dates coincide with chronological, i.e.
  lexicographic, comparison of the triples (`JDate.ltB`).  The generic
  `new Date(string)` fallback of `parseAnyDate` (lines 84-86) is
  host-implementation-defined and is therefore a parameter `gen` of the
  embedding;
* the click-handler pipeline: range resolution with 8-day expansion and swap
  (lines 103-115), the keyed-API URL construction (lines 124-131), the
  static-path date filter (lines 138-157), Fisher-Yates sampling
  (lines 159-174), and the button/gallery state machine with its `finally`
  restoration (lines 29-33, 198-208);
* the gallery card metadata (lines 280-296) and the modal controller
  (lines 357-384).

Host builtins that the script calls are parameters of the embedding:
`gen` for generic date parsing, `enc` for `encodeURIComponent`, and `disp`
for `formatDateDisplay`'s `toLocaleDateString` rendering.
-/

/-! ### HTML escaping (script.js lines 318-333) -/

/-- The double-quote character. -/
def dquoteChar : Char := Char.ofNat 34

/-- The single-quote (apostrophe) character. -/
def squoteChar : Char := Char.ofNat 39

/-- Replacement for a single character, following the `map` of `escapeHtml`
(lines 320-326): the five characters matched by the regexp are replaced by
their entities, all other characters are kept. -/
def escChar (c : Char) : List Char :=
  if c = '&' then ['&', 'a', 'm', 'p', ';']
  else if c = '<' then ['&', 'l', 't', ';']
  else if c = '>' then ['&', 'g', 't', ';']
  else if c = dquoteChar then ['&', 'q', 'u', 'o', 't', ';']
  else if c = squoteChar then ['&', '#', '3', '9', ';']
  else [c]

/-- Character-list form of `escapeHtml`: `String.replace` with a global
single-character regexp rewrites each character independently. -/
def escapeHtmlCore : List Char → List Char
  | [] => []
  | c :: rest => escChar c ++ escapeHtmlCore rest

/-- `escapeHtml` (script.js lines 319-328). -/
def escapeHtml (s : String) : String := String.mk (escapeHtmlCore s.data)

/-- `escapeAttr` (script.js lines 331-333): delegates to `escapeHtml`. -/
def escapeAttr (s : String) : String := escapeHtml s

/-- Left-to-right scan checking that a character list contains no raw
`< > " '` and that every `&` begins one of the five entities
`&amp; &lt; &gt; &quot; &#39;`. -/
def rawFree : List Char → Bool
  | [] => true
  | c :: rest =>
    if c = '&' then
      match rest with
      | 'a' :: 'm' :: 'p' :: ';' :: t => rawFree t
      | 'l' :: 't' :: ';' :: t => rawFree t
      | 'g' :: 't' :: ';' :: t => rawFree t
      | 'q' :: 'u' :: 'o' :: 't' :: ';' :: t => rawFree t
      | '#' :: '3' :: '9' :: ';' :: t => rawFree t
      | _ => false
    else if c = '<' || c = '>' || c = dquoteChar || c = squoteChar then false
    else rawFree rest

/-- Standard HTML entity decoding, written from the specification's words
(the source never decodes): each of the five entities produced by
`escapeHtml` is rewritten back to its character, every other character is
kept verbatim.  On strings in the image of `escapeHtml` this agrees with any
standards-conforming entity decoder. -/
def decodeHtml : List Char → List Char
  | [] => []
  | c :: rest =>
    if c = '&' then
      match rest with
      | 'a' :: 'm' :: 'p' :: ';' :: t => '&' :: decodeHtml t
      | 'l' :: 't' :: ';' :: t => '<' :: decodeHtml t
      | 'g' :: 't' :: ';' :: t => '>' :: decodeHtml t
      | 'q' :: 'u' :: 'o' :: 't' :: ';' :: t => dquoteChar :: decodeHtml t
      | '#' :: '3' :: '9' :: ';' :: t => squoteChar :: decodeHtml t
      | t => c :: decodeHtml t
    else c :: decodeHtml rest

/-! ### Calendar dates

`parseAnyDate` (lines 72-87) returns `new Date(Date.UTC(...))`, i.e. a UTC
midnight; `addDays` (lines 97-101) shifts such a date by whole calendar
days via `setUTCDate`; `formatDateYMD` (lines 90-95) reads the UTC year,
month and day back.  We therefore model a date value as the civil triple
read off by `getUTCFullYear` / `getUTCMonth() + 1` / `getUTCDate`. -/

/-- A JavaScript `Date` at UTC midnight: year, 1-based month, day-of-month. -/
structure JDate where
  y : Int
  m : Nat
  d : Nat
deriving DecidableEq

/-- Proleptic-Gregorian leap-year rule, as used by ECMAScript time values. -/
def isLeapYear (y : Int) : Bool :=
  (y % 4 = 0 && y % 100 ≠ 0) || y % 400 = 0

/-- Number of days in a (1-based) month. -/
def daysInMonth (y : Int) (m : Nat) : Nat :=
  if m = 2 then (if isLeapYear y then 29 else 28)
  else if m = 4 || m = 6 || m = 9 || m = 11 then 30
  else 31

/-- The calendar day after `t`. -/
def nextDay (t : JDate) : JDate :=
  if t.d < daysInMonth t.y t.m then ⟨t.y, t.m, t.d + 1⟩
  else if t.m < 12 then ⟨t.y, t.m + 1, 1⟩
  else ⟨t.y + 1, 1, 1⟩

/-- The calendar day before `t`. -/
def prevDay (t : JDate) : JDate :=
  if 1 < t.d then ⟨t.y, t.m, t.d - 1⟩
  else if 1 < t.m then ⟨t.y, t.m - 1, daysInMonth t.y (t.m - 1)⟩
  else ⟨t.y - 1, 12, 31⟩

/-- `addDays` (script.js lines 97-101): `setUTCDate(getUTCDate() + days)`
shifts a UTC-midnight date by exactly `days` calendar days. -/
def addDays (t : JDate) (n : Int) : JDate :=
  if 0 ≤ n then nextDay^[n.toNat] t else prevDay^[(-n).toNat] t

/-- Chronological (= lexicographic) strict comparison of civil dates; this is
what `a.getTime() < b.getTime()` computes on the UTC-midnight dates of this
program. -/
def JDate.ltB (a b : JDate) : Bool :=
  decide (a.y < b.y) ||
    (decide (a.y = b.y) &&
      (decide (a.m < b.m) || (decide (a.m = b.m) && decide (a.d < b.d))))

/-- Chronological non-strict comparison, `a.getTime() <= b.getTime()`. -/
def JDate.leB (a b : JDate) : Bool := ! JDate.ltB b a

/-- ASCII whitespace accepted by the `\s` of the `parseAnyDate` regexp. -/
def isWS (c : Char) : Bool :=
  c = ' ' || c = Char.ofNat 9 || c = Char.ofNat 10 || c = Char.ofNat 13 ||
    c = Char.ofNat 11 || c = Char.ofNat 12

/-- ASCII decimal digit test (`\d`). -/
def isDigitC (c : Char) : Bool := 48 ≤ c.toNat && c.toNat ≤ 57

/-- Numeric value of a decimal digit character. -/
def digitVal (c : Char) : Nat := c.toNat - 48

/-- Value of a digit string, as computed by JavaScript `Number` on a
fixed-width all-digit match. -/
def valOfDigits (l : List Char) : Nat :=
  l.foldl (fun a c => a * 10 + digitVal c) 0

/-- The regexp `^\s*(\d{4})-(\d{2})-(\d{2})\s*$` of `parseAnyDate`
(line 75), returning the three captured numbers. -/
def matchYMD (cs : List Char) : Option (Nat × Nat × Nat) :=
  match cs.dropWhile isWS with
  | y1 :: y2 :: y3 :: y4 :: h1 :: m1 :: m2 :: h2 :: d1 :: d2 :: rest =>
    if h1 = '-' && h2 = '-' && isDigitC y1 && isDigitC y2 && isDigitC y3 &&
        isDigitC y4 && isDigitC m1 && isDigitC m2 && isDigitC d1 &&
        isDigitC d2 && rest.all isWS then
      some (valOfDigits [y1, y2, y3, y4], valOfDigits [m1, m2],
        valOfDigits [d1, d2])
    else none
  | _ => none

/-- Model of ECMAScript `Date.UTC(y, m0, d0)` restricted to the integral
arguments this program passes: `MakeFullYear` maps a year 0-99 to
`1900 + y`, the month is normalised into 0-11 with carry into the year, and
day-of-month overflow or underflow walks the calendar from the first of the
month. -/
def dateUTC (y0 m0 d0 : Int) : JDate :=
  addDays
    ⟨(if 0 ≤ y0 ∧ y0 ≤ 99 then y0 + 1900 else y0) + m0 / 12,
      (m0 % 12).toNat + 1, 1⟩
    (d0 - 1)

/-- `parseAnyDate` (script.js lines 72-87).  `gen` is the
host-implementation-defined `new Date(string)` fallback of lines 84-86,
already truncated to a UTC day (`none` models an invalid date). -/
def parseAnyDate (gen : String → Option JDate) (str : String) : Option JDate :=
  if str = "" then none
  else
    match matchYMD str.data with
    | some (y, m, d) => some (dateUTC (y : Int) ((m : Int) - 1) (d : Int))
    | none => gen str

/-- Decimal digits of `n`, most significant first (fuel-based so that it
computes by kernel reduction). -/
def natDecimalGo (fuel n : Nat) : List Char :=
  match fuel with
  | 0 => []
  | fuel + 1 =>
    if n < 10 then [Nat.digitChar n]
    else natDecimalGo fuel (n / 10) ++ [Nat.digitChar (n % 10)]

/-- Decimal representation of a natural number, as printed by JavaScript. -/
def natDecimal (n : Nat) : List Char := natDecimalGo (n + 1) n

/-- Decimal representation of an integer, as printed by JavaScript
template-string interpolation. -/
def intDecimal (i : Int) : List Char :=
  if i < 0 then '-' :: natDecimal (-i).toNat else natDecimal i.toNat

/-- `String.prototype.padStart(k, '0')`. -/
def padZeros (k : Nat) (s : List Char) : List Char :=
  List.replicate (k - s.length) '0' ++ s

/-- `formatDateYMD` (script.js lines 90-95): the year is printed as-is,
month and day are zero-padded to two digits. -/
def formatDateYMD (t : JDate) : String :=
  String.mk (intDecimal t.y ++ '-' :: padZeros 2 (natDecimal t.m) ++
    '-' :: padZeros 2 (natDecimal t.d))

/-- A strict zero-padded `YYYY-MM-DD` string built from its three numeric
fields (the shape quantified over by the round-trip property). -/
def ymdChars (y m d : Nat) : List Char :=
  padZeros 4 (natDecimal y) ++ '-' :: padZeros 2 (natDecimal m) ++
    '-' :: padZeros 2 (natDecimal d)

/-- String form of `ymdChars`. -/
def ymdString (y m d : Nat) : String := String.mk (ymdChars y m d)

/-! ### Records and the fetch pipeline (script.js lines 29-209) -/

/-- One APOD record as delivered by the static dataset or the keyed API
(spec section 6).  A field is `none` when absent from the JSON; JavaScript
truthiness tests treat an absent field and an empty string alike. -/
structure ApodRecord where
  title : Option String
  date : Option String
  media_type : Option String
  url : Option String
  hdurl : Option String
  explanation : Option String
deriving DecidableEq

/-- A fetched JSON document: a single record object or an array of them. -/
inductive JsonData where
  | single (r : ApodRecord)
  | many (rs : List ApodRecord)
deriving DecidableEq

/-- `Array.isArray(data) ? data : [data]` (lines 136 and 143). -/
def normalizeData : JsonData → List ApodRecord
  | .single r => [r]
  | .many rs => rs

/-- JavaScript `x || dflt` on an optional string field. -/
def strOr (o : Option String) (dflt : String) : String :=
  match o with
  | none => dflt
  | some s => if s = "" then dflt else s

/-- The filter callback of the static path (script.js lines 146-153). -/
def staticPred (gen : String → Option JDate) (s e : Option JDate)
    (it : ApodRecord) : Bool :=
  match it.date with
  | none => false
  | some ds =>
    if ds = "" then false
    else
      match parseAnyDate gen ds with
      | none => false
      | some d =>
        if (match s with | some sd => JDate.ltB d sd | none => false) then false
        else if (match e with | some ed => JDate.ltB ed d | none => false) then
          false
        else true

/-- Modelled from the spec: a record "whose day falls within the inclusive
range; missing side of the range is treated as unbounded".  Used as the
specification side of the refinement statement for the static filter. -/
def specInRange (gen : String → Option JDate) (s e : Option JDate)
    (it : ApodRecord) : Bool :=
  match it.date with
  | none => false
  | some ds =>
    match parseAnyDate gen ds with
    | none => false
    | some d =>
      (match s with | some sd => JDate.leB sd d | none => true) &&
        (match e with | some ed => JDate.leB d ed | none => true)

/-- The static-bundled path (script.js lines 143-156): normalise the fetched
document, then filter only when at least one side of the range is given. -/
def staticPath (gen : String → Option JDate) (s e : Option JDate)
    (data : JsonData) : List ApodRecord :=
  let all := normalizeData data
  if s.isSome || e.isSome then all.filter (staticPred gen s e) else all

/-- Range resolution of the click handler (script.js lines 104-115): parse
both inputs, expand a single-sided range to an 8-day span, then swap if the
start is after the end. -/
def resolveRange (gen : String → Option JDate) (startVal endVal : String) :
    Option JDate × Option JDate :=
  let s0 := parseAnyDate gen startVal
  let e0 := parseAnyDate gen endVal
  let p :=
    match s0, e0 with
    | some s, none => (some s, some (addDays s 8))
    | none, some e => (some (addDays e (-8)), some e)
    | a, b => (a, b)
  match p with
  | (some s, some e) =>
    if JDate.ltB e s then (some e, some s) else (some s, some e)
  | q => q

/-- Keyed-API URL construction (script.js lines 126-131).  `enc` models
`encodeURIComponent`. -/
def buildApodUrl (enc : String → String) (apiKey : String)
    (s e : Option JDate) : String :=
  let base := "https://api.nasa.gov/planetary/apod?api_key=" ++ enc apiKey
  match s, e with
  | some sd, some ed =>
    base ++ "&start_date=" ++ formatDateYMD sd ++ "&end_date=" ++
      formatDateYMD ed
  | some sd, none => base ++ "&date=" ++ formatDateYMD sd
  | _, _ => base

/-- `startsWithL pat l` holds when `pat` is an initial segment of `l`. -/
def startsWithL : List Char → List Char → Bool
  | [], _ => true
  | _ :: _, [] => false
  | a :: as, b :: bs => a = b && startsWithL as bs

/-- `hasSub pat l` holds when `pat` occurs contiguously inside `l`. -/
def hasSub (pat : List Char) : List Char → Bool
  | [] => startsWithL pat []
  | c :: r => startsWithL pat (c :: r) || hasSub pat r

/-- The array swap `[arr[i], arr[j]] = [arr[j], arr[i]]` (line 164). -/
def listSwap {α : Type} (l : List α) (i j : Nat) : List α :=
  match l.get? i, l.get? j with
  | some a, some b => (l.set i b).set j a
  | _, _ => l

/-- The Fisher-Yates loop of `shuffleInPlace` (lines 162-165): for `i` from
`n - 1` down to `1`, swap position `i` with position `r i`, where `r i`
models `Math.floor(Math.random() * (i + 1))`. -/
def fyLoop {α : Type} (r : Nat → Nat) (l : List α) : Nat → List α
  | 0 => l
  | i + 1 => fyLoop r (listSwap l (i + 1) (r (i + 1))) i

/-- `shuffleInPlace` (script.js lines 161-167). -/
def shuffleInPlace {α : Type} (r : Nat → Nat) (l : List α) : List α :=
  fyLoop r l (l.length - 1)

/-- The sampling step of the click handler (lines 169-174): shuffle a
non-empty result, then keep the first 9 items when more were found. -/
def samplePipeline {α : Type} (r : Nat → Nat) (items : List α) : List α :=
  if 0 < items.length then
    if 9 < (shuffleInPlace r items).length then (shuffleInPlace r items).take 9
    else shuffleInPlace r items
  else items

/-! ### Gallery cards and the modal controller (script.js lines 239-393) -/

/-- `item.hdurl || item.url || ''` (line 256). -/
def resolvedUrl (it : ApodRecord) : String := strOr it.hdurl (strOr it.url "")

/-- The argument record passed to `openModal`. -/
structure ModalArgs where
  url : String
  title : String
  date : String
  explanation : String
deriving DecidableEq

/-- The dataset metadata a gallery card stores for the modal (lines 282-286):
resolved full-size URL, title with default, display date rendered by the
locale formatter `disp`, and explanation.  Both the click and the
Enter/Space activation of the card (lines 289-310) call `openModal` with
exactly this record. -/
def cardMeta (disp : String → String) (it : ApodRecord) : ModalArgs :=
  { url := resolvedUrl it
    title := strOr it.title "Untitled"
    date := disp (strOr it.date "")
    explanation := strOr it.explanation "" }

/-- Observable state of the singleton modal overlay: visibility, image
source and alt text, the three text fields, and the `overflow` style of the
document root and body (scroll lock). -/
structure ModalState where
  isOpen : Bool
  imgSrc : String
  imgAlt : String
  titleText : String
  dateText : String
  explanationText : String
  rootOverflow : String
  bodyOverflow : String
deriving DecidableEq

/-- `openModal` (script.js lines 358-372): no-op when the URL is falsy,
otherwise populate every field, mark the overlay open and lock scrolling. -/
def openModal (a : ModalArgs) (st : ModalState) : ModalState :=
  if a.url = "" then st
  else
    { isOpen := true
      imgSrc := a.url
      imgAlt := if a.title = "" then "Space image" else a.title
      titleText := a.title
      dateText := a.date
      explanationText := a.explanation
      rootOverflow := "hidden"
      bodyOverflow := "hidden" }

/-- `closeModal` (script.js lines 375-384): hide the overlay, clear every
field and restore scrolling. -/
def closeModal (_st : ModalState) : ModalState :=
  { isOpen := false
    imgSrc := ""
    imgAlt := ""
    titleText := ""
    dateText := ""
    explanationText := ""
    rootOverflow := ""
    bodyOverflow := "" }

/-! ### The click handler's button/gallery state machine -/

/-- Observable state of the trigger button. -/
structure ButtonState where
  disabled : Bool
  label : String
deriving DecidableEq

/-- Abstract content of the gallery container after the handler ran. -/
inductive GalleryView where
  | loading
  | failed
  | empty (startDisplay endDisplay : String)
  | rendered (items : List ApodRecord) (startDisplay endDisplay : String)
deriving DecidableEq

/-- Button plus gallery. -/
structure UIState where
  button : ButtonState
  gallery : GalleryView
deriving DecidableEq

/-- One activation of the click handler (script.js lines 29-209), as a
function of the parsed fetch response (`Except` models a thrown network or
JSON error).  The handler saves the label and disables the button
(lines 30-33), runs the pipeline, and the `finally` block (lines 205-208)
re-enables the button and writes `originalLabel || 'Fetch Space Images'`. -/
def clickHandler (gen : String → Option JDate) (r : Nat → Nat)
    (startVal endVal apiKey : String) (fetchResult : Except String JsonData)
    (ui : UIState) : UIState :=
  let originalLabel := ui.button.label
  let loadingUI : UIState :=
    { button := { disabled := true, label := "Loading..." }
      gallery := .loading }
  let afterTry : UIState :=
    match fetchResult with
    | .error _ => { loadingUI with gallery := .failed }
    | .ok data =>
      let se := resolveRange gen startVal endVal
      let startDisplay := match se.1 with | some t => formatDateYMD t | none => ""
      let endDisplay := match se.2 with | some t => formatDateYMD t | none => ""
      let items0 :=
        if apiKey.trim = "" then staticPath gen se.1 se.2 data
        else normalizeData data
      let items := samplePipeline r items0
      if items.length = 0 then
        { loadingUI with gallery := .empty startDisplay endDisplay }
      else { loadingUI with gallery := .rendered items startDisplay endDisplay }
  { afterTry with
    button :=
      { disabled := false
        label := if originalLabel = "" then "Fetch Space Images"
          else originalLabel } }

/-! ### Concrete fixtures used by witnesses and counterexamples -/

/-- A generic-parse fallback that accepts nothing (any host behaviour agrees
with it on the strict `YYYY-MM-DD` inputs used below). -/
def genNone : String → Option JDate := fun _ => none

/-- Record dated 2024-01-01. -/
def recJan1 : ApodRecord :=
  { title := some "A", date := some "2024-01-01", media_type := some "image"
    url := some "u1", hdurl := none, explanation := some "e1" }

/-- Record dated 2024-01-02. -/
def recJan2 : ApodRecord :=
  { title := some "B", date := some "2024-01-02", media_type := some "image"
    url := some "u2", hdurl := none, explanation := some "e2" }

/-- Record dated 2024-01-03. -/
def recJan3 : ApodRecord :=
  { title := some "C", date := some "2024-01-03", media_type := some "image"
    url := some "u3", hdurl := none, explanation := some "e3" }

/-- The three-record static dataset of the spec's scenario. -/
def apodThree : JsonData := .many [recJan1, recJan2, recJan3]

/-- A record with no date field. -/
def recNoDate : ApodRecord :=
  { title := some "N", date := none, media_type := some "image"
    url := some "u", hdurl := none, explanation := none }

/-- A video record with no usable display URL. -/
def recNoUrl : ApodRecord :=
  { title := some "V", date := some "2024-01-04", media_type := some "video"
    url := none, hdurl := none, explanation := some "ev" }

/-- An arbitrary concrete modal state. -/
def modalInit : ModalState :=
  { isOpen := false, imgSrc := "", imgAlt := "", titleText := ""
    dateText := "", explanationText := "", rootOverflow := ""
    bodyOverflow := "" }

/-- A UI state whose button label is empty. -/
def uiEmptyLabel : UIState :=
  { button := { disabled := false, label := "" }, gallery := .loading }

/-- A UI state with the page's usual button label. -/
def uiFetch : UIState :=
  { button := { disabled := false, label := "Fetch Space Images" }
    gallery := .loading }

/-! ### Lemmas: HTML escaping -/

/-- `rawFree` steps over a character that is none of the five specials. -/
theorem rawFree_cons_other {c : Char} (l : List Char) (h1 : c ≠ '&')
    (hb : (c = '<' || c = '>' || c = dquoteChar || c = squoteChar) = false) :
    rawFree (c :: l) = rawFree l := by
  conv_lhs => unfold rawFree
  rw [if_neg h1, hb]
  simp

/-- `decodeHtml` keeps a character other than `&` and continues. -/
theorem decodeHtml_cons_other {c : Char} (l : List Char) (h1 : c ≠ '&') :
    decodeHtml (c :: l) = c :: decodeHtml l := by
  conv_lhs => unfold decodeHtml
  rw [if_neg h1]

/-- Scanning an escaped string never finds a raw special character, and the
five-entity decoder inverts the escaper. -/
theorem escape_scan (l : List Char) :
    rawFree (escapeHtmlCore l) = true ∧ decodeHtml (escapeHtmlCore l) = l := by
  induction l with
  | nil => exact ⟨rfl, rfl⟩
  | cons c rest ih =>
    by_cases h1 : c = '&'
    · subst h1
      simpa [escapeHtmlCore, escChar, rawFree, decodeHtml] using ih
    · by_cases h2 : c = '<'
      · subst h2
        simpa [escapeHtmlCore, escChar, rawFree, decodeHtml] using ih
      · by_cases h3 : c = '>'
        · subst h3
          simpa [escapeHtmlCore, escChar, rawFree, decodeHtml] using ih
        · by_cases h4 : c = dquoteChar
          · subst h4
            simpa [escapeHtmlCore, escChar, rawFree, decodeHtml, dquoteChar]
              using ih
          · by_cases h5 : c = squoteChar
            · subst h5
              simpa [escapeHtmlCore, escChar, rawFree, decodeHtml, squoteChar]
                using ih
            · have e1 : escapeHtmlCore (c :: rest) = c :: escapeHtmlCore rest := by
                simp [escapeHtmlCore, escChar, h1, h2, h3, h4, h5]
              have hb : (c = '<' || c = '>' || c = dquoteChar ||
                  c = squoteChar) = false := by
                simp [h2, h3, h4, h5]
              rw [e1, rawFree_cons_other _ h1 hb, decodeHtml_cons_other _ h1]
              exact ⟨ih.1, by rw [ih.2]⟩

/-- Claim C1: for every string `s`, `escapeHtml s` contains no raw
occurrence of the five characters (every `&` in the output begins one of
the entities `&amp; &lt; &gt; &quot; &#39;`), and standard HTML entity
decoding of `escapeHtml s` yields `s` back. -/
theorem claim_C1 (s : String) :
    rawFree (escapeHtml s).data = true ∧ decodeHtml (escapeHtml s).data = s.data := by
  simpa [escapeHtml] using escape_scan s.data

/-! ### Lemmas: chronological order of civil dates -/

/-- Unfolding of the strict date comparison. -/
theorem JDate.ltB_iff (a b : JDate) : JDate.ltB a b = true ↔
    (a.y < b.y ∨ (a.y = b.y ∧ (a.m < b.m ∨ (a.m = b.m ∧ a.d < b.d)))) := by
  simp [JDate.ltB]

/-- Asymmetry of the strict date comparison. -/
theorem JDate.ltB_asymm {a b : JDate} (h : JDate.ltB a b = true) :
    JDate.ltB b a = false := by
  rw [JDate.ltB_iff] at h
  rw [Bool.eq_false_iff, Ne, JDate.ltB_iff]
  omega

/-- Transitivity of the strict date comparison. -/
theorem JDate.ltB_trans {a b c : JDate} (h1 : JDate.ltB a b = true)
    (h2 : JDate.ltB b c = true) : JDate.ltB a c = true := by
  rw [JDate.ltB_iff] at h1 h2 ⊢
  omega

/-- The successor day is chronologically later. -/
theorem ltB_nextDay (t : JDate) : JDate.ltB t (nextDay t) = true := by
  rw [JDate.ltB_iff]
  unfold nextDay
  split
  · simp
    try omega
  · split <;> simp <;> omega

/-- The predecessor day is chronologically earlier. -/
theorem ltB_prevDay (t : JDate) : JDate.ltB (prevDay t) t = true := by
  rw [JDate.ltB_iff]
  unfold prevDay
  split
  · simp
    try omega
  · split <;> simp <;> omega

/-- Iterating the successor day strictly increases the date. -/
theorem ltB_iterate_nextDay (t : JDate) (n : Nat) (h : 0 < n) :
    JDate.ltB t (nextDay^[n] t) = true := by
  induction n with
  | zero => omega
  | succ k ih =>
    rcases Nat.eq_zero_or_pos k with hk | hk
    · subst hk; simpa using ltB_nextDay t
    · rw [Function.iterate_succ_apply']
      exact JDate.ltB_trans (ih hk) (ltB_nextDay _)

/-- Iterating the predecessor day strictly decreases the date. -/
theorem ltB_iterate_prevDay (t : JDate) (n : Nat) (h : 0 < n) :
    JDate.ltB (prevDay^[n] t) t = true := by
  induction n with
  | zero => omega
  | succ k ih =>
    rcases Nat.eq_zero_or_pos k with hk | hk
    · subst hk; simpa using ltB_prevDay t
    · rw [Function.iterate_succ_apply']
      exact JDate.ltB_trans (ltB_prevDay _) (ih hk)

/-- `addDays` with the positive literal used by the range expansion. -/
theorem addDays_eight (t : JDate) : addDays t 8 = nextDay^[8] t := by
  simp [addDays]

/-- `addDays` with the negative literal used by the range expansion. -/
theorem addDays_neg_eight (t : JDate) : addDays t (-8) = prevDay^[8] t := by
  rw [addDays, if_neg (by omega), show (-(-8 : Int)).toNat = 8 from by decide]

/-- A date is strictly before itself plus eight days. -/
theorem ltB_addDays_eight (t : JDate) : JDate.ltB t (addDays t 8) = true := by
  rw [addDays_eight]
  exact ltB_iterate_nextDay t 8 (by omega)

/-- A date minus eight days is strictly before the date. -/
theorem ltB_addDays_neg_eight (t : JDate) :
    JDate.ltB (addDays t (-8)) t = true := by
  rw [addDays_neg_eight]
  exact ltB_iterate_prevDay t 8 (by omega)

/-! ### Lemmas: range resolution -/

/-- When only the start parses, the end is filled to start plus eight days
and no swap happens. -/
theorem resolveRange_start_only {gen : String → Option JDate}
    {sv ev : String} {s : JDate} (h1 : parseAnyDate gen sv = some s)
    (h2 : parseAnyDate gen ev = none) :
    resolveRange gen sv ev = (some s, some (addDays s 8)) := by
  have hlt : JDate.ltB (addDays s 8) s = false :=
    JDate.ltB_asymm (ltB_addDays_eight s)
  simp [resolveRange, h1, h2, hlt]

/-- When only the end parses, the start is filled to end minus eight days
and no swap happens. -/
theorem resolveRange_end_only {gen : String → Option JDate}
    {sv ev : String} {e : JDate} (h1 : parseAnyDate gen sv = none)
    (h2 : parseAnyDate gen ev = some e) :
    resolveRange gen sv ev = (some (addDays e (-8)), some e) := by
  have hlt : JDate.ltB e (addDays e (-8)) = false :=
    JDate.ltB_asymm (ltB_addDays_neg_eight e)
  simp [resolveRange, h1, h2, hlt]

/-- When both sides parse, the resolved range is the two dates, swapped
exactly when the start is chronologically after the end. -/
theorem resolveRange_both {gen : String → Option JDate} {sv ev : String}
    {s e : JDate} (h1 : parseAnyDate gen sv = some s)
    (h2 : parseAnyDate gen ev = some e) :
    resolveRange gen sv ev =
      if JDate.ltB e s then (some e, some s) else (some s, some e) := by
  simp [resolveRange, h1, h2]

/-- When neither side parses, the resolved range is empty. -/
theorem resolveRange_none {gen : String → Option JDate} {sv ev : String}
    (h1 : parseAnyDate gen sv = none) (h2 : parseAnyDate gen ev = none) :
    resolveRange gen sv ev = (none, none) := by
  simp [resolveRange, h1, h2]

/-- After resolution, a present start always comes with a present end: the
single-date branch of the keyed-API URL builder is unreachable. -/
theorem resolveRange_isSome (gen : String → Option JDate) (sv ev : String)
    (h : (resolveRange gen sv ev).1.isSome = true) :
    (resolveRange gen sv ev).2.isSome = true := by
  cases h1 : parseAnyDate gen sv with
  | none =>
    cases h2 : parseAnyDate gen ev with
    | none => rw [resolveRange_none h1 h2] at h ⊢; exact h
    | some e => rw [resolveRange_end_only h1 h2]; rfl
  | some s =>
    cases h2 : parseAnyDate gen ev with
    | none => rw [resolveRange_start_only h1 h2]; rfl
    | some e =>
      rw [resolveRange_both h1 h2]
      split <;> rfl

/-! ### Lemmas: the static-path filter -/

/-- The empty string never parses (line 73 of `parseAnyDate`). -/
theorem parseAnyDate_empty (gen : String → Option JDate) :
    parseAnyDate gen "" = none := rfl

/-- The filter callback of the static path computes exactly the
specification's inclusive-range membership test. -/
theorem staticPred_eq_spec (gen : String → Option JDate) (s e : Option JDate)
    (it : ApodRecord) : staticPred gen s e it = specInRange gen s e it := by
  unfold staticPred specInRange
  cases hdt : it.date with
  | none => rfl
  | some ds =>
    by_cases hds : ds = ""
    · subst hds
      simp [parseAnyDate_empty]
    · cases hp : parseAnyDate gen ds with
      | none => simp [hds, hp]
      | some d =>
        cases s with
        | none =>
          cases e with
          | none => simp [hds, hp]
          | some ed =>
            cases hlt : JDate.ltB ed d <;> simp [hds, hp, hlt, JDate.leB]
        | some sd =>
          cases e with
          | none =>
            cases hlt : JDate.ltB d sd <;> simp [hds, hp, hlt, JDate.leB]
          | some ed =>
            cases hlt : JDate.ltB d sd <;>
              cases hlt2 : JDate.ltB ed d <;>
                simp [hds, hp, hlt, hlt2, JDate.leB]

/-- The static path either keeps the whole dataset (no range) or filters it
by the specification's inclusive-range predicate. -/
theorem staticPath_eq (gen : String → Option JDate) (s e : Option JDate)
    (data : JsonData) :
    staticPath gen s e data =
      if s = none ∧ e = none then normalizeData data
      else (normalizeData data).filter (specInRange gen s e) := by
  have hfun : staticPred gen s e = specInRange gen s e :=
    funext (staticPred_eq_spec gen s e)
  unfold staticPath
  cases s <;> cases e <;> simp [hfun]

/-- Every record surviving the static filter with both bounds present has a
parseable date lying inside the bounds. -/
theorem staticPath_mem_bounds {gen : String → Option JDate} {sd ed : JDate}
    {data : JsonData} {it : ApodRecord}
    (h : it ∈ staticPath gen (some sd) (some ed) data) :
    ∃ ds d, it.date = some ds ∧ parseAnyDate gen ds = some d ∧
      JDate.leB sd d = true ∧ JDate.leB d ed = true := by
  rw [staticPath_eq] at h
  rw [if_neg (by simp)] at h
  rw [List.mem_filter] at h
  obtain ⟨-, hpred⟩ := h
  unfold specInRange at hpred
  cases hdt : it.date with
  | none => rw [hdt] at hpred; simp at hpred
  | some ds =>
    rw [hdt] at hpred
    cases hp : parseAnyDate gen ds with
    | none => simp [hp] at hpred
    | some d =>
      simp only [hp, Bool.and_eq_true] at hpred
      exact ⟨ds, d, rfl, hp, hpred.1, hpred.2⟩

/-- Claim C3: whenever both dates parse and the start is strictly after the
end, the orchestrator swaps them before filtering, and on the static path
every filtered record has a parsed day between the swapped bounds. -/
theorem claim_C3 (gen : String → Option JDate) (sv ev : String) (s e : JDate)
    (h1 : parseAnyDate gen sv = some s) (h2 : parseAnyDate gen ev = some e)
    (h3 : JDate.ltB e s = true) :
    resolveRange gen sv ev = (some e, some s) ∧
    ∀ (data : JsonData) (it : ApodRecord),
      it ∈ staticPath gen (some e) (some s) data →
      ∃ ds d, it.date = some ds ∧ parseAnyDate gen ds = some d ∧
        JDate.leB e d = true ∧ JDate.leB d s = true := by
  constructor
  · rw [resolveRange_both h1 h2, if_pos h3]
  · intro data it hmem
    exact staticPath_mem_bounds hmem

/-- Witness for C3 at a concrete inverted range. -/
theorem claim_C3_witness :
    parseAnyDate genNone "2024-01-05" = some ⟨2024, 1, 5⟩ ∧
    parseAnyDate genNone "2024-01-02" = some ⟨2024, 1, 2⟩ ∧
    JDate.ltB ⟨2024, 1, 2⟩ ⟨2024, 1, 5⟩ = true ∧
    resolveRange genNone "2024-01-05" "2024-01-02" =
      (some ⟨2024, 1, 2⟩, some ⟨2024, 1, 5⟩) :=
  ⟨by decide, by decide, by decide,
    (claim_C3 genNone "2024-01-05" "2024-01-02" ⟨2024, 1, 5⟩ ⟨2024, 1, 2⟩
      (by decide) (by decide) (by decide)).1⟩

/-- Claim C5: on the static-bundled path the whole fetched dataset is kept
when no range is given, and otherwise it is filtered to the records whose
parsed day lies in the inclusive range, a missing side being unbounded. -/
theorem claim_C5 (gen : String → Option JDate) (s e : Option JDate)
    (data : JsonData) :
    staticPath gen s e data =
      if s = none ∧ e = none then normalizeData data
      else (normalizeData data).filter (specInRange gen s e) :=
  staticPath_eq gen s e data

/-- Claim C10: a record whose date is missing, empty or unparseable is in
the static-path result exactly when no range at all was given. -/
theorem claim_C10 (gen : String → Option JDate) (s e : Option JDate)
    (data : JsonData) (it : ApodRecord)
    (h : it.date = none ∨ it.date = some "" ∨
      (∀ ds, it.date = some ds → parseAnyDate gen ds = none)) :
    (it ∈ staticPath gen s e data ↔
      (it ∈ normalizeData data ∧ s = none ∧ e = none)) := by
  have hbad : specInRange gen s e it = false := by
    unfold specInRange
    rcases h with h | h | h
    · rw [h]
    · rw [h]
      simp [parseAnyDate_empty]
    · cases hdt : it.date with
      | none => rfl
      | some ds =>
        simp [h ds hdt]
  rw [staticPath_eq]
  by_cases hne : s = none ∧ e = none
  · rw [if_pos hne]
    constructor
    · intro hm; exact ⟨hm, hne⟩
    · intro hm; exact hm.1
  · rw [if_neg hne]
    constructor
    · intro hm
      rw [List.mem_filter] at hm
      rw [hbad] at hm
      simp at hm
    · intro hm
      exact absurd hm.2 hne

/-- Witness for C10: a record without a date field is kept when no range is
given. -/
theorem claim_C10_witness :
    recNoDate ∈ staticPath genNone none none (JsonData.many [recNoDate]) ↔
      (recNoDate ∈ normalizeData (JsonData.many [recNoDate]) ∧
        (none : Option JDate) = none ∧ (none : Option JDate) = none) :=
  claim_C10 genNone none none (JsonData.many [recNoDate]) recNoDate
    (Or.inl rfl)

/-! ### Lemmas: Fisher-Yates sampling -/

/-- Replacing the `k`-th element by `x` and carrying the old value to the
front is a permutation of carrying `x` to the front. -/
theorem cons_set_perm {α : Type} (x : α) : ∀ (l : List α) (k : Nat) (v : α),
    l.get? k = some v → List.Perm (v :: l.set k x) (x :: l) := by
  intro l
  induction l with
  | nil => intro k v hk; simp at hk
  | cons c t ih =>
    intro k v hk
    cases k with
    | zero =>
      rw [List.get?_cons_zero] at hk
      have hv : c = v := Option.some.inj hk
      subst hv
      simpa using List.Perm.swap x c t
    | succ k =>
      rw [List.get?_cons_succ] at hk
      have step1 : List.Perm (v :: c :: t.set k x) (c :: v :: t.set k x) :=
        List.Perm.swap c v _
      have step2 : List.Perm (c :: v :: t.set k x) (c :: x :: t) :=
        List.Perm.cons c (ih k v hk)
      have step3 : List.Perm (c :: x :: t) (x :: c :: t) :=
        List.Perm.swap x c t
      simpa using (step1.trans step2).trans step3

/-- Writing `b` at `i` and `a` at `j`, where `a` and `b` are the old values
at `i` and `j`, permutes the list. -/
theorem set_set_swap_perm {α : Type} : ∀ (l : List α) (i j : Nat) (a b : α),
    l.get? i = some a → l.get? j = some b →
    List.Perm ((l.set i b).set j a) l := by
  intro l
  induction l with
  | nil => intro i j a b hi hj; simp at hi
  | cons c t ih =>
    intro i j a b hi hj
    cases i with
    | zero =>
      rw [List.get?_cons_zero] at hi
      have ha : c = a := Option.some.inj hi
      subst ha
      cases j with
      | zero =>
        rw [List.get?_cons_zero] at hj
        have hb : c = b := Option.some.inj hj
        subst hb
        simp
      | succ k =>
        rw [List.get?_cons_succ] at hj
        simpa using cons_set_perm c t k b hj
    | succ k =>
      rw [List.get?_cons_succ] at hi
      cases j with
      | zero =>
        rw [List.get?_cons_zero] at hj
        have hb : c = b := Option.some.inj hj
        subst hb
        simpa using cons_set_perm c t k a hi
      | succ k2 =>
        rw [List.get?_cons_succ] at hj
        simp only [List.set_cons_succ]
        exact List.Perm.cons c (ih k k2 a b hi hj)

/-- The two-position swap of the shuffle loop is a permutation. -/
theorem listSwap_perm {α : Type} (l : List α) (i j : Nat) :
    List.Perm (listSwap l i j) l := by
  unfold listSwap
  cases hi : l.get? i with
  | none => cases hj : l.get? j <;> exact List.Perm.refl l
  | some a =>
    cases hj : l.get? j with
    | none => exact List.Perm.refl l
    | some b => exact set_set_swap_perm l i j a b hi hj

/-- Every state of the Fisher-Yates loop is a permutation of its input. -/
theorem fyLoop_perm {α : Type} (r : Nat → Nat) :
    ∀ (n : Nat) (l : List α), List.Perm (fyLoop r l n) l := by
  intro n
  induction n with
  | zero => intro l; exact List.Perm.refl l
  | succ i ih =>
    intro l
    exact (ih (listSwap l (i + 1) (r (i + 1)))).trans
      (listSwap_perm l (i + 1) (r (i + 1)))

/-- `shuffleInPlace` permutes its input for every choice sequence. -/
theorem shuffleInPlace_perm {α : Type} (r : Nat → Nat) (l : List α) :
    List.Perm (shuffleInPlace r l) l :=
  fyLoop_perm r (l.length - 1) l

/-- Claim C2: for every valid sequence of random choices, sampling with
bound 9 returns `min (length, 9)` elements forming a sub-multiset of the
input (nothing duplicated, nothing introduced); an 11-element distinct
input yields exactly 9 distinct input elements, and a 5-element input is
returned in full, merely reordered. -/
theorem claim_C2 {α : Type} (r : Nat → Nat) (items : List α)
    (hr : ∀ i, r i ≤ i) :
    (samplePipeline r items).length = min items.length 9 ∧
    List.Subperm (samplePipeline r items) items ∧
    (items.Nodup → (samplePipeline r items).Nodup) ∧
    (items.length = 11 → items.Nodup →
      (samplePipeline r items).length = 9 ∧ (samplePipeline r items).Nodup ∧
        ∀ x, x ∈ samplePipeline r items → x ∈ items) ∧
    (items.length = 5 → List.Perm (samplePipeline r items) items) := by
  clear hr
  have hp : List.Perm (shuffleInPlace r items) items := shuffleInPlace_perm r items
  have hlen : (shuffleInPlace r items).length = items.length := hp.length_eq
  unfold samplePipeline
  by_cases h0 : 0 < items.length
  · rw [if_pos h0]
    by_cases h9 : 9 < (shuffleInPlace r items).length
    · rw [if_pos h9]
      have hsub : List.Subperm ((shuffleInPlace r items).take 9) items :=
        (List.take_sublist 9 (shuffleInPlace r items)).subperm.trans hp.subperm
      have hlen9 : ((shuffleInPlace r items).take 9).length = 9 := by
        rw [List.length_take]
        omega
      have hnd : items.Nodup → ((shuffleInPlace r items).take 9).Nodup := by
        intro hn
        exact (hp.nodup_iff.mpr hn).sublist
          (List.take_sublist 9 (shuffleInPlace r items))
      refine ⟨by omega, hsub, hnd, ?_, ?_⟩
      · intro h11 hn
        exact ⟨hlen9, hnd hn, fun x hx => hsub.subset hx⟩
      · intro h5
        omega
    · rw [if_neg h9]
      refine ⟨by omega, hp.subperm, fun hn => hp.nodup_iff.mpr hn, ?_, ?_⟩
      · intro h11
        omega
      · intro h5
        exact hp
  · rw [if_neg h0]
    have h00 : items.length = 0 := by omega
    refine ⟨by omega, List.Subperm.refl items, fun hn => hn, ?_, ?_⟩
    · intro h11
      omega
    · intro h5
      omega

/-- Witness for C2 on a concrete three-element list with the all-zero
choice sequence. -/
theorem claim_C2_witness :
    (samplePipeline (fun _ => 0) [1, 2, 3]).length = min ([1, 2, 3] : List Nat).length 9 ∧
    List.Subperm (samplePipeline (fun _ => 0) [1, 2, 3]) [1, 2, 3] :=
  ⟨(claim_C2 (fun _ => 0) [1, 2, 3] (fun i => Nat.zero_le i)).1,
    ((claim_C2 (fun _ => 0) [1, 2, 3] (fun i => Nat.zero_le i)).2).1⟩

/-- Claim C4: a single-sided range is expanded to an eight-day span
(start-only fills the end with start + 8 days, end-only fills the start
with end - 8 days); concretely 2024-01-02 expands to 2024-01-10, and on
the three-record dataset dated 2024-01-01..03 with start 2024-01-02 the
static filter keeps exactly the records of 01-02 and 01-03. -/
theorem claim_C4 (gen : String → Option JDate) (sv ev : String)
    (s e : JDate) :
    (parseAnyDate gen sv = some s → parseAnyDate gen ev = none →
      resolveRange gen sv ev = (some s, some (addDays s 8))) ∧
    (parseAnyDate gen sv = none → parseAnyDate gen ev = some e →
      resolveRange gen sv ev = (some (addDays e (-8)), some e)) ∧
    addDays ⟨2024, 1, 2⟩ 8 = ⟨2024, 1, 10⟩ ∧
    staticPath genNone (resolveRange genNone "2024-01-02" "").1
      (resolveRange genNone "2024-01-02" "").2 apodThree = [recJan2, recJan3] := by
  refine ⟨fun h1 h2 => resolveRange_start_only h1 h2,
    fun h1 h2 => resolveRange_end_only h1 h2, by decide, by decide⟩

/-- Witness for C4: the concrete start-only request. -/
theorem claim_C4_witness :
    resolveRange genNone "2024-01-02" "" =
      (some ⟨2024, 1, 2⟩, some (addDays ⟨2024, 1, 2⟩ 8)) :=
  (claim_C4 genNone "2024-01-02" "" ⟨2024, 1, 2⟩ ⟨2024, 1, 2⟩).1
    (by decide) (by decide)

/-- Counterexample to C6 as stated: with only a start date supplied, the
keyed-API request is built with `start_date`/`end_date` parameters and
carries no single `date` parameter at all. -/
theorem claim_C6_counterexample :
    hasSub ("&date=").data (buildApodUrl (fun k => k) "DEMO_KEY"
        (resolveRange genNone "2024-01-02" "").1
        (resolveRange genNone "2024-01-02" "").2).data = false ∧
    hasSub ("&start_date=").data (buildApodUrl (fun k => k) "DEMO_KEY"
        (resolveRange genNone "2024-01-02" "").1
        (resolveRange genNone "2024-01-02" "").2).data = true := by
  constructor <;> decide

/-- Claim C6 (amended): with only a start parsed, range resolution first
expands the end to start + 8 days, so the keyed request carries
`start_date`/`end_date` parameters for the eight-day span; the single-day
`date` branch is unreachable because a resolved start always comes with an
end; a non-array response is still normalized into a one-element list. -/
theorem claim_C6_amended (gen : String → Option JDate)
    (enc : String → String) (apiKey sv ev : String) (s : JDate)
    (h1 : parseAnyDate gen sv = some s) (h2 : parseAnyDate gen ev = none) :
    buildApodUrl enc apiKey (resolveRange gen sv ev).1
        (resolveRange gen sv ev).2 =
      "https://api.nasa.gov/planetary/apod?api_key=" ++ enc apiKey ++
        "&start_date=" ++ formatDateYMD s ++ "&end_date=" ++
        formatDateYMD (addDays s 8) ∧
    (∀ sv2 ev2, (resolveRange gen sv2 ev2).1.isSome = true →
      (resolveRange gen sv2 ev2).2.isSome = true) ∧
    (∀ rcd : ApodRecord, normalizeData (JsonData.single rcd) = [rcd]) := by
  refine ⟨?_, fun sv2 ev2 h => resolveRange_isSome gen sv2 ev2 h,
    fun rcd => rfl⟩
  rw [resolveRange_start_only h1 h2]
  rfl

/-- Witness for the amended C6 at the concrete start-only request. -/
theorem claim_C6_amended_witness :
    buildApodUrl (fun k => k) "DEMO_KEY"
        (resolveRange genNone "2024-01-02" "").1
        (resolveRange genNone "2024-01-02" "").2 =
      "https://api.nasa.gov/planetary/apod?api_key=" ++ "DEMO_KEY" ++
        "&start_date=" ++ formatDateYMD ⟨2024, 1, 2⟩ ++ "&end_date=" ++
        formatDateYMD (addDays ⟨2024, 1, 2⟩ 8) :=
  (claim_C6_amended genNone (fun k => k) "DEMO_KEY" "2024-01-02" ""
    ⟨2024, 1, 2⟩ (by decide) (by decide)).1

/-- Claim C7: `openModal` with an empty URL is a no-op on the whole modal
state, and hence the modal never opens from a rendered card whose record
lacks a display URL. -/
theorem claim_C7 :
    (∀ (a : ModalArgs) (st : ModalState), a.url = "" → openModal a st = st) ∧
    (∀ (disp : String → String) (it : ApodRecord) (st : ModalState),
      resolvedUrl it = "" → openModal (cardMeta disp it) st = st) := by
  constructor
  · intro a st h
    simp [openModal, h]
  · intro disp it st h
    simp [openModal, cardMeta, h]

/-- Witness for C7: an empty explicit URL and a concrete video record
without URL both leave the modal state untouched. -/
theorem claim_C7_witness :
    openModal ⟨"", "T", "D", "E"⟩ modalInit = modalInit ∧
    openModal (cardMeta (fun x => x) recNoUrl) modalInit = modalInit :=
  ⟨claim_C7.1 ⟨"", "T", "D", "E"⟩ modalInit rfl,
    claim_C7.2 (fun x => x) recNoUrl modalInit (by decide)⟩

/-- Counterexample to C8 as stated: a button whose pre-activation label is
the empty string is not restored to it — the `finally` block writes the
fallback label `Fetch Space Images` instead. -/
theorem claim_C8_counterexample :
    (clickHandler genNone (fun _ => 0) "" "" "" (Except.error "boom")
        uiEmptyLabel).button.label ≠ uiEmptyLabel.button.label := by
  decide

/-- Claim C8 (amended): on every exit path — successful render, empty
result, or a thrown failure — the trigger is re-enabled, and its label is
restored to the pre-activation label, except that an empty saved label is
replaced by the fallback `Fetch Space Images`. -/
theorem claim_C8_amended (gen : String → Option JDate) (r : Nat → Nat)
    (sv ev apiKey : String) (fr : Except String JsonData) (ui : UIState) :
    (clickHandler gen r sv ev apiKey fr ui).button.disabled = false ∧
    (clickHandler gen r sv ev apiKey fr ui).button.label =
      (if ui.button.label = "" then "Fetch Space Images"
        else ui.button.label) := by
  cases fr <;> simp [clickHandler]

/-! ### Lemmas: decimal digits and the round-trip machinery -/

/-- `Nat.digitChar` on a single digit is a digit character with that value. -/
theorem digitChar_facts : ∀ k, k < 10 →
    isDigitC (Nat.digitChar k) = true ∧ digitVal (Nat.digitChar k) = k := by
  decide

/-- `natDecimalGo` does not depend on the fuel once it exceeds the input. -/
theorem natDecimalGo_fuel : ∀ (f f2 n : Nat), n < f → n < f2 →
    natDecimalGo f n = natDecimalGo f2 n := by
  intro f
  induction f with
  | zero => intro f2 n h; omega
  | succ f ih =>
    intro f2 n h h2
    cases f2 with
    | zero => omega
    | succ f2 =>
      rw [natDecimalGo, natDecimalGo]
      split
      · rfl
      · rw [ih f2 (n / 10) (by omega) (by omega)]

/-- Recursion equation for `natDecimal`. -/
theorem natDecimal_eq (n : Nat) :
    natDecimal n = if n < 10 then [Nat.digitChar n]
      else natDecimal (n / 10) ++ [Nat.digitChar (n % 10)] := by
  unfold natDecimal
  rw [natDecimalGo]
  split
  · rfl
  · rw [natDecimalGo_fuel n (n / 10 + 1) (n / 10) (by omega) (by omega)]

/-- Every character printed by `natDecimal` is a decimal digit. -/
theorem natDecimal_digits (n : Nat) : (natDecimal n).all isDigitC = true := by
  induction n using Nat.strong_induction_on with
  | _ n ih =>
    rw [natDecimal_eq]
    split
    · simpa using (digitChar_facts n (by omega)).1
    · rw [List.all_append]
      have h1 := ih (n / 10) (by omega)
      have h2 := (digitChar_facts (n % 10) (by omega)).1
      simp [h1, h2]

/-- Appending one digit multiplies the value by ten and adds the digit. -/
theorem valOfDigits_append (l : List Char) (c : Char) :
    valOfDigits (l ++ [c]) = valOfDigits l * 10 + digitVal c := by
  simp [valOfDigits, List.foldl_append]

/-- `valOfDigits` inverts `natDecimal`. -/
theorem valOfDigits_natDecimal (n : Nat) : valOfDigits (natDecimal n) = n := by
  induction n using Nat.strong_induction_on with
  | _ n ih =>
    rw [natDecimal_eq]
    split
    · simp [valOfDigits, (digitChar_facts n (by omega)).2]
    · rw [valOfDigits_append, ih (n / 10) (by omega),
        (digitChar_facts (n % 10) (by omega)).2]
      omega

/-- Number of decimal digits of `n` between consecutive powers of ten. -/
theorem natDecimal_length : ∀ (k n : Nat), 10 ^ k ≤ n → n < 10 ^ (k + 1) →
    (natDecimal n).length = k + 1 := by
  intro k
  induction k with
  | zero =>
    intro n h1 h2
    rw [natDecimal_eq, if_pos (by simpa using h2)]
    rfl
  | succ k ih =>
    intro n h1 h2
    have h10 : 10 ≤ n := le_trans (Nat.pow_le_pow_right (by omega) (by omega) :
      10 ^ 1 ≤ 10 ^ (k + 1)) (by simpa using h1)
    rw [natDecimal_eq, if_neg (by omega), List.length_append]
    have hlow : 10 ^ k ≤ n / 10 := by
      rw [Nat.le_div_iff_mul_le (by omega)]
      calc 10 ^ k * 10 = 10 ^ (k + 1) := by ring
        _ ≤ n := h1
    have hhigh : n / 10 < 10 ^ (k + 1) := by
      rw [Nat.div_lt_iff_lt_mul (by omega)]
      calc n < 10 ^ (k + 1 + 1) := h2
        _ = 10 ^ (k + 1) * 10 := by ring
    rw [ih (n / 10) hlow hhigh]
    rfl

/-- A zero digit in front does not change the numeric value. -/
theorem valOfDigits_cons_zero (s : List Char) :
    valOfDigits ('0' :: s) = valOfDigits s := by
  simp only [valOfDigits, List.foldl_cons]
  rw [show (0 * 10 + digitVal '0') = 0 from by decide]

/-- Zero padding does not change the numeric value. -/
theorem valOfDigits_replicate (j : Nat) (s : List Char) :
    valOfDigits (List.replicate j '0' ++ s) = valOfDigits s := by
  induction j with
  | zero => simp
  | succ j ih =>
    rw [List.replicate_succ, List.cons_append, valOfDigits_cons_zero, ih]

/-- `padZeros` preserves the numeric value. -/
theorem valOfDigits_padZeros (k : Nat) (s : List Char) :
    valOfDigits (padZeros k s) = valOfDigits s :=
  valOfDigits_replicate (k - s.length) s

/-- `padZeros` preserves all-digitness. -/
theorem padZeros_digits (k : Nat) (s : List Char)
    (h : s.all isDigitC = true) : (padZeros k s).all isDigitC = true := by
  unfold padZeros
  rw [List.all_append, h]
  have : (List.replicate (k - s.length) '0').all isDigitC = true := by
    rw [List.all_eq_true]
    intro c hc
    rw [List.eq_of_mem_replicate hc]
    decide
  simp [this]

/-- Length of a zero-padded block. -/
theorem padZeros_length (k : Nat) (s : List Char) :
    (padZeros k s).length = max k s.length := by
  simp [padZeros]
  omega

/-- Padding a string that already has the target length is the identity. -/
theorem padZeros_of_length (k : Nat) (s : List Char) (h : s.length = k) :
    padZeros k s = s := by
  unfold padZeros
  rw [h]
  simp

/-- A decimal digit is not whitespace. -/
theorem digit_not_ws (c : Char) (h : isDigitC c = true) : isWS c = false := by
  simp only [isDigitC, Bool.and_eq_true, decide_eq_true_eq] at h
  simp only [isWS, Bool.or_eq_false_iff, decide_eq_false_iff_not]
  refine ⟨⟨⟨⟨⟨?_, ?_⟩, ?_⟩, ?_⟩, ?_⟩, ?_⟩ <;> rintro rfl <;> revert h <;> decide

/-- A list of length two is a two-element list literal. -/
theorem list_len2 {α : Type} (l : List α) (h : l.length = 2) :
    ∃ a b, l = [a, b] := by
  cases l with
  | nil => simp at h
  | cons a t =>
    cases t with
    | nil => simp at h
    | cons b t2 =>
      cases t2 with
      | nil => exact ⟨a, b, rfl⟩
      | cons c t3 =>
        simp only [List.length_cons] at h
        omega

/-- A list of length four is a four-element list literal. -/
theorem list_len4 {α : Type} (l : List α) (h : l.length = 4) :
    ∃ a b c d, l = [a, b, c, d] := by
  cases l with
  | nil => simp at h
  | cons a t =>
    cases t with
    | nil => simp at h
    | cons b t2 =>
      cases t2 with
      | nil => simp at h
      | cons c t3 =>
        cases t3 with
        | nil => simp at h
        | cons d t4 =>
          cases t4 with
          | nil => exact ⟨a, b, c, d, rfl⟩
          | cons e t5 =>
            simp only [List.length_cons] at h
            omega

/-- The strict regexp accepts a 4-2-2 digit block layout and captures the
three numeric values. -/
theorem matchYMD_blocks (ys ms ds : List Char)
    (hyl : ys.length = 4) (hml : ms.length = 2) (hdl : ds.length = 2)
    (hyd : ys.all isDigitC = true) (hmd : ms.all isDigitC = true)
    (hdd : ds.all isDigitC = true) :
    matchYMD (ys ++ '-' :: (ms ++ '-' :: ds)) =
      some (valOfDigits ys, valOfDigits ms, valOfDigits ds) := by
  obtain ⟨y1, y2, y3, y4, rfl⟩ := list_len4 ys hyl
  obtain ⟨m1, m2, rfl⟩ := list_len2 ms hml
  obtain ⟨d1, d2, rfl⟩ := list_len2 ds hdl
  simp only [List.all_cons, List.all_nil, Bool.and_eq_true, and_true] at hyd hmd hdd
  obtain ⟨hy1, hy2, hy3, hy4⟩ := hyd
  obtain ⟨hm1, hm2⟩ := hmd
  obtain ⟨hd1, hd2⟩ := hdd
  unfold matchYMD
  simp only [List.cons_append, List.nil_append]
  rw [List.dropWhile_cons, if_neg (by rw [digit_not_ws y1 hy1]; simp)]
  simp [hy1, hy2, hy3, hy4, hm1, hm2, hd1, hd2]

/-- Every month has at most 31 days. -/
theorem daysInMonth_le (y : Int) (m : Nat) : daysInMonth y m ≤ 31 := by
  unfold daysInMonth
  split
  · split <;> omega
  · split <;> omega

/-- Stepping `nextDay` inside one month just increments the day. -/
theorem nextDay_iterate_in_month (y : Int) (m : Nat) :
    ∀ (k j : Nat), 1 ≤ j → j + k ≤ daysInMonth y m →
    nextDay^[k] ⟨y, m, j⟩ = ⟨y, m, j + k⟩ := by
  intro k
  induction k with
  | zero => intro j h1 h2; simp
  | succ k ih =>
    intro j h1 h2
    rw [Function.iterate_succ_apply]
    have hstep : nextDay ⟨y, m, j⟩ = ⟨y, m, j + 1⟩ := by
      simp [nextDay, show j < daysInMonth y m from by omega]
    rw [hstep, ih (j + 1) (by omega) (by omega)]
    congr 1
    omega

/-- `Date.UTC` on an in-range civil triple (year at least 1000, so the
two-digit-year rule does not fire) is the triple itself. -/
theorem dateUTC_valid (y : Int) (m d : Nat) (hy : 1000 ≤ y) (hm1 : 1 ≤ m)
    (hm2 : m ≤ 12) (hd1 : 1 ≤ d) (hd2 : d ≤ daysInMonth y m) :
    dateUTC y ((m : Int) - 1) ((d : Int)) = ⟨y, m, d⟩ := by
  unfold dateUTC
  rw [if_neg (by omega)]
  rw [show ((m : Int) - 1) / 12 = 0 from by omega]
  rw [show (((m : Int) - 1) % 12).toNat = m - 1 from by omega]
  rw [addDays, if_pos (by omega)]
  rw [show ((d : Int) - 1).toNat = d - 1 from by omega]
  have hm : m - 1 + 1 = m := by omega
  rw [hm]
  rw [show (y + 0 : Int) = y from by omega]
  rw [nextDay_iterate_in_month y m (d - 1) 1 (by omega) (by omega)]
  congr 1
  omega

/-- Formatting an in-range civil triple prints the zero-padded
`YYYY-MM-DD` string. -/
theorem formatDateYMD_valid (y : Int) (m d : Nat) (hy1 : 1000 ≤ y)
    (hy2 : y ≤ 9999) :
    formatDateYMD ⟨y, m, d⟩ = ymdString y.toNat m d := by
  unfold formatDateYMD ymdString ymdChars
  have hint : intDecimal y = natDecimal y.toNat := by
    unfold intDecimal
    rw [if_neg (by omega)]
  have hlen : (natDecimal y.toNat).length = 4 := by
    have := natDecimal_length 3 y.toNat (by omega) (by omega)
    simpa using this
  rw [hint, padZeros_of_length 4 _ hlen]

/-- Parsing an in-range `YYYY-MM-DD` string hits the strict regexp path and
produces the corresponding `Date.UTC` value. -/
theorem parseAnyDate_ymd (gen : String → Option JDate) (y m d : Nat)
    (hy1 : 1000 ≤ y) (hy2 : y ≤ 9999) (hm1 : 1 ≤ m) (hm2 : m ≤ 12)
    (hd1 : 1 ≤ d) (hd2 : d ≤ 31) :
    parseAnyDate gen (ymdString y m d) =
      some (dateUTC (y : Int) ((m : Int) - 1) (d : Int)) := by
  have hylen : (natDecimal y).length = 4 := by
    have := natDecimal_length 3 y (by omega) (by omega)
    simpa using this
  have hy4 : padZeros 4 (natDecimal y) = natDecimal y :=
    padZeros_of_length 4 _ hylen
  have hmblock : (padZeros 2 (natDecimal m)).length = 2 := by
    rw [padZeros_length]
    rcases Nat.lt_or_ge m 10 with hlt | hge
    · have := natDecimal_length 0 m (by omega) (by omega)
      omega
    · have := natDecimal_length 1 m (by omega) (by omega)
      omega
  have hdblock : (padZeros 2 (natDecimal d)).length = 2 := by
    rw [padZeros_length]
    rcases Nat.lt_or_ge d 10 with hlt | hge
    · have := natDecimal_length 0 d (by omega) (by omega)
      omega
    · have := natDecimal_length 1 d (by omega) (by omega)
      omega
  have hne : ymdString y m d ≠ "" := by
    unfold ymdString
    intro hcon
    have hdata : ymdChars y m d = [] := by
      have := congrArg String.data hcon
      simpa using this
    unfold ymdChars at hdata
    rw [List.append_eq_nil] at hdata
    exact absurd hdata.2 (by simp)
  unfold parseAnyDate
  rw [if_neg hne]
  have hmatch : matchYMD (ymdString y m d).data = some (y, m, d) := by
    show matchYMD (ymdChars y m d) = some (y, m, d)
    unfold ymdChars
    rw [hy4, List.append_assoc, List.cons_append]
    rw [matchYMD_blocks (natDecimal y) (padZeros 2 (natDecimal m))
      (padZeros 2 (natDecimal d)) hylen hmblock hdblock
      (natDecimal_digits y) (padZeros_digits 2 _ (natDecimal_digits m))
      (padZeros_digits 2 _ (natDecimal_digits d))]
    rw [valOfDigits_natDecimal, valOfDigits_padZeros, valOfDigits_padZeros,
      valOfDigits_natDecimal, valOfDigits_natDecimal]
  rw [hmatch]

/-- Claim C9 (amended): for every zero-padded `YYYY-MM-DD` string denoting
a valid calendar date with year 1000-9999, parsing with `parseAnyDate` and
re-formatting with `formatDateYMD` is the identity. -/
theorem claim_C9_amended (gen : String → Option JDate) (y m d : Nat)
    (hy1 : 1000 ≤ y) (hy2 : y ≤ 9999) (hm1 : 1 ≤ m) (hm2 : m ≤ 12)
    (hd1 : 1 ≤ d) (hd2 : d ≤ daysInMonth (y : Int) m) :
    (parseAnyDate gen (ymdString y m d)).map formatDateYMD =
      some (ymdString y m d) := by
  have h31 : d ≤ 31 := le_trans hd2 (daysInMonth_le (y : Int) m)
  rw [parseAnyDate_ymd gen y m d hy1 hy2 hm1 hm2 hd1 h31]
  rw [Option.map_some']
  rw [dateUTC_valid (y : Int) m d (by omega) hm1 hm2 hd1 hd2]
  rw [formatDateYMD_valid (y : Int) m d (by omega) (by omega)]
  rw [Int.toNat_natCast]

/-- Witness for the amended C9 at 2024-01-02. -/
theorem claim_C9_amended_witness :
    (parseAnyDate genNone (ymdString 2024 1 2)).map formatDateYMD =
      some (ymdString 2024 1 2) :=
  claim_C9_amended genNone 2024 1 2 (by omega) (by omega) (by omega)
    (by omega) (by omega) (by decide)

/-- Counterexample to C9 as stated: the valid calendar date `0099-01-01`
does not round-trip — ECMAScript's two-digit-year rule makes `Date.UTC`
read the year 99 as 1999, and the formatter prints `1999-01-01`. -/
theorem claim_C9_counterexample :
    (parseAnyDate genNone "0099-01-01").map formatDateYMD ≠
      some "0099-01-01" := by
  decide
